import Mathlib

/-!
Shallow embedding of the `Transform` component from
`src/amethyst_core/src/transform/components/local_transform.rs`.

The Rust code stores a `Transform` as an `Isometry3<f32>` (translation plus a
unit quaternion) together with a scale `Vector3<f32>`; here the isometry is
flattened into its two fields.  Machine `f32` arithmetic is embedded as exact
real arithmetic.  The linear-algebra primitives (quaternion product,
quaternion-vector rotation, axis-angle and Euler-angle constructors, the
homogeneous-matrix construction and `prepend_nonuniform_scaling`) are
translated from the nalgebra dependency, which the code calls directly.
-/

noncomputable section

/-- A 3-vector of reals, embedding nalgebra `Vector3<f32>`. -/
@[ext]
structure Vec3 where
  x : ℝ
  y : ℝ
  z : ℝ

/-- Component-wise vector addition. -/
def Vec3.add (a b : Vec3) : Vec3 :=
  ⟨a.x + b.x, a.y + b.y, a.z + b.z⟩

instance : Add Vec3 :=
  ⟨Vec3.add⟩

/-- Component-wise vector negation. -/
def Vec3.neg (a : Vec3) : Vec3 :=
  ⟨-a.x, -a.y, -a.z⟩

instance : Neg Vec3 :=
  ⟨Vec3.neg⟩

/-- Scalar multiple of a vector. -/
def Vec3.smul (c : ℝ) (a : Vec3) : Vec3 :=
  ⟨c * a.x, c * a.y, c * a.z⟩

/-- Component-wise product, embedding nalgebra `component_mul`. -/
def Vec3.cmul (a b : Vec3) : Vec3 :=
  ⟨a.x * b.x, a.y * b.y, a.z * b.z⟩

/-- Cross product, embedding nalgebra `Vector3::cross`. -/
def Vec3.cross (a b : Vec3) : Vec3 :=
  ⟨a.y * b.z - a.z * b.y, a.z * b.x - a.x * b.z, a.x * b.y - a.y * b.x⟩

/-- The zero vector. -/
def Vec3.zero : Vec3 :=
  ⟨0, 0, 0⟩

/-- A quaternion `w + x i + y j + z k`, embedding nalgebra `Quaternion<f32>`
(whose in-memory `coords` layout is `[x, y, z, w]`; here the four components
are named fields). -/
@[ext]
structure Quat where
  w : ℝ
  x : ℝ
  y : ℝ
  z : ℝ

/-- Hamilton product, embedding the nalgebra quaternion product used by
`UnitQuaternion` multiplication. -/
def Quat.mul (p q : Quat) : Quat :=
  ⟨p.w * q.w - p.x * q.x - p.y * q.y - p.z * q.z,
   p.w * q.x + p.x * q.w + p.y * q.z - p.z * q.y,
   p.w * q.y - p.x * q.z + p.y * q.w + p.z * q.x,
   p.w * q.z + p.x * q.y - p.y * q.x + p.z * q.w⟩

instance : Mul Quat :=
  ⟨Quat.mul⟩

/-- The identity quaternion, nalgebra `Quaternion::identity()`. -/
def Quat.one : Quat :=
  ⟨1, 0, 0, 0⟩

/-- Squared norm of a quaternion. -/
def Quat.normSq (q : Quat) : ℝ :=
  q.w ^ 2 + q.x ^ 2 + q.y ^ 2 + q.z ^ 2

/-- The vector (imaginary) part, nalgebra `Quaternion::vector()`. -/
def Quat.vector (q : Quat) : Vec3 :=
  ⟨q.x, q.y, q.z⟩

/-- The scalar (real) part, nalgebra `Quaternion::scalar()`. -/
def Quat.scalar (q : Quat) : ℝ :=
  q.w

/-- Scalar multiple of a quaternion. -/
def Quat.smul (c : ℝ) (q : Quat) : Quat :=
  ⟨c * q.w, c * q.x, c * q.y, c * q.z⟩

/-- Normalization, embedding nalgebra `Unit::new_normalize`: divide by the
norm `sqrt (normSq q)`. -/
def Quat.normalize (q : Quat) : Quat :=
  Quat.smul (Real.sqrt q.normSq)⁻¹ q

/-- The in-memory coordinate array of a quaternion, nalgebra `coords`:
layout `[x, y, z, w]` with the scalar part last. -/
def Quat.coords (q : Quat) : Fin 4 → ℝ :=
  ![q.x, q.y, q.z, q.w]

/-- Rotation of a vector by a (unit) quaternion, embedding the nalgebra
`UnitQuaternion<f32> * Vector3<f32>` implementation:
`t = 2 * (q.vector × v); result = t * q.scalar + q.vector × t + v`. -/
def rotVec (q : Quat) (v : Vec3) : Vec3 :=
  Vec3.smul q.scalar (Vec3.smul 2 (Vec3.cross q.vector v)) +
    Vec3.cross q.vector (Vec3.smul 2 (Vec3.cross q.vector v)) + v

/-- Axis-angle quaternion, embedding nalgebra
`UnitQuaternion::from_axis_angle`: `(cos (angle/2), sin (angle/2) * axis)`. -/
def fromAxisAngle (axis : Vec3) (angle : ℝ) : Quat :=
  ⟨Real.cos (angle / 2), Real.sin (angle / 2) * axis.x,
   Real.sin (angle / 2) * axis.y, Real.sin (angle / 2) * axis.z⟩

/-- Euler-angle quaternion, embedding nalgebra
`UnitQuaternion::from_euler_angles(roll, pitch, yaw)` (primitive rotations
applied in the order roll about X, pitch about Y, yaw about Z). -/
def fromEulerAngles (roll pitch yaw : ℝ) : Quat :=
  ⟨Real.cos (roll / 2) * Real.cos (pitch / 2) * Real.cos (yaw / 2) +
     Real.sin (roll / 2) * Real.sin (pitch / 2) * Real.sin (yaw / 2),
   Real.sin (roll / 2) * Real.cos (pitch / 2) * Real.cos (yaw / 2) -
     Real.cos (roll / 2) * Real.sin (pitch / 2) * Real.sin (yaw / 2),
   Real.cos (roll / 2) * Real.sin (pitch / 2) * Real.cos (yaw / 2) +
     Real.sin (roll / 2) * Real.cos (pitch / 2) * Real.sin (yaw / 2),
   Real.cos (roll / 2) * Real.cos (pitch / 2) * Real.sin (yaw / 2) -
     Real.sin (roll / 2) * Real.sin (pitch / 2) * Real.cos (yaw / 2)⟩

/-- The `Transform` component: local translation, rotation and scale.
The Rust struct stores translation and rotation combined in `iso`. -/
@[ext]
structure Transform where
  translation : Vec3
  rotation : Quat
  scale : Vec3

/-- `Transform::default()`: identity isometry and unit scale. -/
def Transform.default : Transform :=
  ⟨Vec3.zero, Quat.one, ⟨1, 1, 1⟩⟩

/-- `Transform::move_global`: `translation += v`. -/
def Transform.move_global (t : Transform) (v : Vec3) : Transform :=
  { t with translation := t.translation + v }

/-- `Transform::move_local`: `translation += rotation * v`. -/
def Transform.move_local (t : Transform) (v : Vec3) : Transform :=
  { t with translation := t.translation + rotVec t.rotation v }

/-- `Transform::move_along_global`: `translation += direction * distance`. -/
def Transform.move_along_global (t : Transform) (direction : Vec3) (distance : ℝ) : Transform :=
  { t with translation := t.translation + Vec3.smul distance direction }

/-- `Transform::move_along_local`:
`translation += (rotation * direction) * distance`. -/
def Transform.move_along_local (t : Transform) (direction : Vec3) (distance : ℝ) : Transform :=
  { t with translation := t.translation + Vec3.smul distance (rotVec t.rotation direction) }

/-- `Transform::rotate_global`: pre-multiply by the axis-angle quaternion,
`rotation = q * rotation`. -/
def Transform.rotate_global (t : Transform) (axis : Vec3) (angle : ℝ) : Transform :=
  { t with rotation := (fromAxisAngle axis angle).mul t.rotation }

/-- `Transform::rotate_local`: post-multiply by the axis-angle quaternion,
`rotation = rotation * q`. -/
def Transform.rotate_local (t : Transform) (axis : Vec3) (angle : ℝ) : Transform :=
  { t with rotation := t.rotation.mul (fromAxisAngle axis angle) }

/-- `Transform::set_position`: absolute set of the translation vector. -/
def Transform.set_position (t : Transform) (position : Vec3) : Transform :=
  { t with translation := position }

/-- `Transform::set_rotation`: absolute set of the rotation quaternion. -/
def Transform.set_rotation (t : Transform) (rotation : Quat) : Transform :=
  { t with rotation := rotation }

/-- `Transform::set_scale`: absolute set of the scale vector. -/
def Transform.set_scale (t : Transform) (sx sy sz : ℝ) : Transform :=
  { t with scale := ⟨sx, sy, sz⟩ }

/-- `Transform::set_rotation_euler(x, y, z)`: the source feeds the permuted
tuple to the builder, `rotation = from_euler_angles(z, x, y)`. -/
def Transform.set_rotation_euler (t : Transform) (x y z : ℝ) : Transform :=
  { t with rotation := fromEulerAngles z x y }

/-- `Transform::concat`: scale is multiplied component-wise, rotation is
post-multiplied, and the translation of the other transform is scaled by the
new scale, rotated by the new rotation, and added. -/
def Transform.concat (t other : Transform) : Transform :=
  let scale := Vec3.cmul t.scale other.scale
  let rotation := t.rotation.mul other.rotation
  let translation :=
    t.translation + rotVec rotation (Vec3.cmul other.translation scale)
  ⟨translation, rotation, scale⟩

/-- The 3×3 rotation matrix of a unit quaternion, embedding nalgebra
`UnitQuaternion::to_rotation_matrix`. -/
def rotMat3 (q : Quat) : Matrix (Fin 3) (Fin 3) ℝ :=
  !![q.w ^ 2 + q.x ^ 2 - q.y ^ 2 - q.z ^ 2, 2 * (q.x * q.y) - 2 * (q.w * q.z),
       2 * (q.w * q.y) + 2 * (q.x * q.z);
     2 * (q.w * q.z) + 2 * (q.x * q.y), q.w ^ 2 - q.x ^ 2 + q.y ^ 2 - q.z ^ 2,
       2 * (q.y * q.z) - 2 * (q.w * q.x);
     2 * (q.x * q.z) - 2 * (q.w * q.y), 2 * (q.w * q.x) + 2 * (q.y * q.z),
       q.w ^ 2 - q.x ^ 2 - q.y ^ 2 + q.z ^ 2]

/-- Homogeneous matrix of an isometry, embedding nalgebra
`Isometry3::to_homogeneous`: rotation block top-left, translation in the
last column. -/
def isoHomogeneous (r : Quat) (tr : Vec3) : Matrix (Fin 4) (Fin 4) ℝ :=
  !![rotMat3 r 0 0, rotMat3 r 0 1, rotMat3 r 0 2, tr.x;
     rotMat3 r 1 0, rotMat3 r 1 1, rotMat3 r 1 2, tr.y;
     rotMat3 r 2 0, rotMat3 r 2 1, rotMat3 r 2 2, tr.z;
     0, 0, 0, 1]

/-- nalgebra `Matrix4::prepend_nonuniform_scaling`: scale the first three
columns by the scale components. -/
def prependNonuniformScaling (m : Matrix (Fin 4) (Fin 4) ℝ) (s : Vec3) :
    Matrix (Fin 4) (Fin 4) ℝ :=
  Matrix.of fun i j => m i j * (![s.x, s.y, s.z, 1] j)

/-- `Transform::matrix`:
`self.iso.to_homogeneous().prepend_nonuniform_scaling(&self.scale)`. -/
def Transform.matrix (t : Transform) : Matrix (Fin 4) (Fin 4) ℝ :=
  prependNonuniformScaling (isoHomogeneous t.rotation t.translation) t.scale

/-- nalgebra `try_inverse`: the inverse when the matrix is invertible,
`none` when it is singular. -/
def tryInverse (m : Matrix (Fin 4) (Fin 4) ℝ) : Option (Matrix (Fin 4) (Fin 4) ℝ) :=
  if m.det = 0 then none else some m⁻¹

/-- `Transform::view_matrix`: `self.matrix().try_inverse().unwrap()`; the
`unwrap` panic on a singular matrix is embedded as `none`. -/
def Transform.view_matrix (t : Transform) : Option (Matrix (Fin 4) (Fin 4) ℝ) :=
  tryInverse t.matrix

/-- Modelled from the spec (refinement side of C1): the homogeneous
translation matrix `translate(translation)`. -/
def translateMatrix (v : Vec3) : Matrix (Fin 4) (Fin 4) ℝ :=
  !![1, 0, 0, v.x;
     0, 1, 0, v.y;
     0, 0, 1, v.z;
     0, 0, 0, 1]

/-- Modelled from the spec (refinement side of C1): the homogeneous
rotation matrix `rotate(rotation)`. -/
def rotateMatrix (q : Quat) : Matrix (Fin 4) (Fin 4) ℝ :=
  !![rotMat3 q 0 0, rotMat3 q 0 1, rotMat3 q 0 2, 0;
     rotMat3 q 1 0, rotMat3 q 1 1, rotMat3 q 1 2, 0;
     rotMat3 q 2 0, rotMat3 q 2 1, rotMat3 q 2 2, 0;
     0, 0, 0, 1]

/-- Modelled from the spec (refinement side of C1): the homogeneous
non-uniform scaling matrix `scale(scale)`. -/
def scaleMatrix (s : Vec3) : Matrix (Fin 4) (Fin 4) ℝ :=
  !![s.x, 0, 0, 0;
     0, s.y, 0, 0;
     0, 0, s.z, 0;
     0, 0, 0, 1]

/-- The wire record, embedding `SerializedTransform`. -/
structure SerializedTransform where
  translation : ℝ × ℝ × ℝ
  rotation : ℝ × ℝ × ℝ × ℝ
  scale : ℝ × ℝ × ℝ

/-- `SerializedTransform::default()`: the field defaults used on decode. -/
def SerializedTransform.default : SerializedTransform :=
  ⟨(0, 0, 0), (1, 0, 0, 0), (1, 1, 1)⟩

/-- A decoded wire record before defaulting: each field may be absent,
modelling the serde `#[serde(default)]` behaviour on the struct. -/
structure RawTransform where
  translation : Option (ℝ × ℝ × ℝ)
  rotation : Option (ℝ × ℝ × ℝ × ℝ)
  scale : Option (ℝ × ℝ × ℝ)

/-- Fill absent fields from `SerializedTransform::default()`, as
`#[serde(default)]` does. -/
def SerializedTransform.ofRaw (r : RawTransform) : SerializedTransform :=
  ⟨r.translation.getD SerializedTransform.default.translation,
   r.rotation.getD SerializedTransform.default.rotation,
   r.scale.getD SerializedTransform.default.scale⟩

/-- `Transform::deserialize`: build the isometry from the decoded parts,
re-normalizing the quaternion `Quaternion::new(r0, r1, r2, r3)` (wire order
w, x, y, z) with `Unit::new_normalize`. -/
def Transform.deserialize (raw : RawTransform) : Transform :=
  let st := SerializedTransform.ofRaw raw
  { translation := ⟨st.translation.1, st.translation.2.1, st.translation.2.2⟩,
    rotation := Quat.normalize
      ⟨st.rotation.1, st.rotation.2.1, st.rotation.2.2.1, st.rotation.2.2.2⟩,
    scale := ⟨st.scale.1, st.scale.2.1, st.scale.2.2⟩ }

/-- `Transform::serialize`: read the in-memory `coords` array `[x, y, z, w]`
of the rotation and emit `[r.w, r.x, r.y, r.z]`, i.e. wire order w, x, y, z. -/
def Transform.serialize (t : Transform) : SerializedTransform :=
  { translation := (t.translation.x, t.translation.y, t.translation.z),
    rotation := (t.rotation.coords 3, t.rotation.coords 0,
      t.rotation.coords 1, t.rotation.coords 2),
    scale := (t.scale.x, t.scale.y, t.scale.z) }

end

@[simp]
theorem Vec3.add_x (a b : Vec3) : (a + b).x = a.x + b.x := rfl

@[simp]
theorem Vec3.add_y (a b : Vec3) : (a + b).y = a.y + b.y := rfl

@[simp]
theorem Vec3.add_z (a b : Vec3) : (a + b).z = a.z + b.z := rfl

@[simp]
theorem Vec3.neg_x (a : Vec3) : (-a).x = -a.x := rfl

@[simp]
theorem Vec3.neg_y (a : Vec3) : (-a).y = -a.y := rfl

@[simp]
theorem Vec3.neg_z (a : Vec3) : (-a).z = -a.z := rfl

set_option maxHeartbeats 1600000 in
/-- C1: `matrix()` is the homogeneous matrix
`translate(translation) * rotate(rotation) * scale(scale)`: the scale is
applied first, the rotation second, the translation last. -/
theorem matrix_is_translate_rotate_scale (t : Transform) :
    t.matrix = translateMatrix t.translation * rotateMatrix t.rotation * scaleMatrix t.scale := by
  ext i j
  fin_cases i <;> fin_cases j <;>
    simp [Transform.matrix, prependNonuniformScaling, isoHomogeneous, rotMat3,
      translateMatrix, rotateMatrix, scaleMatrix, Matrix.mul_apply, Fin.sum_univ_four,
      Matrix.vecHead, Matrix.vecTail]

/-- C2: `concat(other)` multiplies the scales component-wise, composes the
rotations with self applied second, and adds to the translation the other
translation scaled by the new scale and rotated by the new rotation. -/
theorem concat_steps (t o : Transform) :
    (t.concat o).scale = Vec3.cmul t.scale o.scale ∧
    (t.concat o).rotation = t.rotation.mul o.rotation ∧
    (t.concat o).translation =
      t.translation +
        rotVec (t.rotation.mul o.rotation)
          (Vec3.cmul o.translation (Vec3.cmul t.scale o.scale)) :=
  ⟨rfl, rfl, rfl⟩

/-- C7: `move_global(v)` followed by `move_global(-v)` restores the original
translation exactly. -/
theorem move_global_then_inverse_restores (t : Transform) (v : Vec3) :
    ((t.move_global v).move_global (-v)).translation = t.translation := by
  ext <;> simp [Transform.move_global]

/-- C9: `move_local((0,0,0))` and `move_along_global(axis, 0)` leave the
transform unchanged for every unit axis. -/
theorem zero_moves_are_noops (t : Transform) (axis : Vec3)
    (_h : axis.x ^ 2 + axis.y ^ 2 + axis.z ^ 2 = 1) :
    t.move_local ⟨0, 0, 0⟩ = t ∧ t.move_along_global axis 0 = t := by
  constructor <;> ext <;>
    simp [Transform.move_local, Transform.move_along_global, rotVec, Vec3.cross,
      Vec3.smul, Quat.vector, Quat.scalar]

/-- Witness for C9 at the default transform and the unit X axis. -/
theorem zero_moves_are_noops_witness :
    ((1 : ℝ) ^ 2 + 0 ^ 2 + 0 ^ 2 = 1) ∧
    (Transform.default.move_local ⟨0, 0, 0⟩ = Transform.default ∧
      Transform.default.move_along_global ⟨1, 0, 0⟩ 0 = Transform.default) :=
  ⟨by norm_num, zero_moves_are_noops Transform.default ⟨1, 0, 0⟩ (by norm_num)⟩

/-- C10: `set_rotation_euler(x, y, z)` sets the rotation to the Euler builder
applied to the permuted tuple `(z, x, y)`: the `z` argument becomes the
rotation about the X axis (applied first), the `x` argument the rotation
about the Y axis, and the `y` argument the rotation about the Z axis. -/
theorem set_rotation_euler_axis_order (t : Transform) (x y z : ℝ) :
    (t.set_rotation_euler x y z).rotation =
      (fromAxisAngle ⟨0, 0, 1⟩ y).mul
        ((fromAxisAngle ⟨0, 1, 0⟩ x).mul (fromAxisAngle ⟨1, 0, 0⟩ z)) := by
  ext <;>
    simp [Transform.set_rotation_euler, fromEulerAngles, fromAxisAngle, Quat.mul] <;>
    ring

theorem quat_mul_assoc (p q r : Quat) : (p.mul q).mul r = p.mul (q.mul r) := by
  ext <;> simp [Quat.mul] <;> ring

theorem quat_normSq_mul (p q : Quat) : (p.mul q).normSq = p.normSq * q.normSq := by
  simp only [Quat.mul, Quat.normSq]
  ring

theorem quat_normSq_smul (c : ℝ) (q : Quat) : (Quat.smul c q).normSq = c ^ 2 * q.normSq := by
  simp only [Quat.smul, Quat.normSq]
  ring

theorem quat_normSq_nonneg (q : Quat) : 0 ≤ q.normSq := by
  simp only [Quat.normSq]
  positivity

theorem quat_normSq_ne_zero (q : Quat)
    (h : ¬(q.w = 0 ∧ q.x = 0 ∧ q.y = 0 ∧ q.z = 0)) : q.normSq ≠ 0 := by
  simp only [Quat.normSq]
  intro hc
  apply h
  have hw : q.w ^ 2 = 0 :=
    le_antisymm (by nlinarith [sq_nonneg q.x, sq_nonneg q.y, sq_nonneg q.z]) (sq_nonneg _)
  have hx : q.x ^ 2 = 0 :=
    le_antisymm (by nlinarith [sq_nonneg q.w, sq_nonneg q.y, sq_nonneg q.z]) (sq_nonneg _)
  have hy : q.y ^ 2 = 0 :=
    le_antisymm (by nlinarith [sq_nonneg q.w, sq_nonneg q.x, sq_nonneg q.z]) (sq_nonneg _)
  have hz : q.z ^ 2 = 0 :=
    le_antisymm (by nlinarith [sq_nonneg q.w, sq_nonneg q.x, sq_nonneg q.y]) (sq_nonneg _)
  refine ⟨?_, ?_, ?_, ?_⟩ <;>
    [exact pow_eq_zero_iff two_ne_zero |>.mp hw;
     exact pow_eq_zero_iff two_ne_zero |>.mp hx;
     exact pow_eq_zero_iff two_ne_zero |>.mp hy;
     exact pow_eq_zero_iff two_ne_zero |>.mp hz]

theorem quat_normalize_unit (q : Quat) (hq : q.normSq ≠ 0) : (q.normalize).normSq = 1 := by
  have hs : (0 : ℝ) ≤ q.normSq := quat_normSq_nonneg q
  have : (q.normalize).normSq = ((Real.sqrt q.normSq)⁻¹) ^ 2 * q.normSq :=
    quat_normSq_smul _ q
  rw [this, inv_pow, Real.sq_sqrt hs]
  exact inv_mul_cancel₀ hq

theorem fromAxisAngle_normSq (axis : Vec3)
    (h : axis.x ^ 2 + axis.y ^ 2 + axis.z ^ 2 = 1) (angle : ℝ) :
    (fromAxisAngle axis angle).normSq = 1 := by
  have hp := Real.sin_sq_add_cos_sq (angle / 2)
  simp only [fromAxisAngle, Quat.normSq]
  linear_combination hp + Real.sin (angle / 2) ^ 2 * h

theorem fromEulerAngles_normSq (r p y : ℝ) : (fromEulerAngles r p y).normSq = 1 := by
  have h1 := Real.sin_sq_add_cos_sq (r / 2)
  have h2 := Real.sin_sq_add_cos_sq (p / 2)
  have h3 := Real.sin_sq_add_cos_sq (y / 2)
  simp only [fromEulerAngles, Quat.normSq]
  linear_combination
    ((Real.sin (p / 2) ^ 2 + Real.cos (p / 2) ^ 2) *
        (Real.sin (y / 2) ^ 2 + Real.cos (y / 2) ^ 2)) * h1 +
      (Real.sin (y / 2) ^ 2 + Real.cos (y / 2) ^ 2) * h2 + h3

theorem fromAxisAngle_mul_same_axis (axis : Vec3)
    (h : axis.x ^ 2 + axis.y ^ 2 + axis.z ^ 2 = 1) (a b : ℝ) :
    (fromAxisAngle axis b).mul (fromAxisAngle axis a) = fromAxisAngle axis (a + b) := by
  have hc : Real.cos ((a + b) / 2) =
      Real.cos (a / 2) * Real.cos (b / 2) - Real.sin (a / 2) * Real.sin (b / 2) := by
    rw [show (a + b) / 2 = a / 2 + b / 2 by ring, Real.cos_add]
  have hs : Real.sin ((a + b) / 2) =
      Real.sin (a / 2) * Real.cos (b / 2) + Real.cos (a / 2) * Real.sin (b / 2) := by
    rw [show (a + b) / 2 = a / 2 + b / 2 by ring, Real.sin_add]
  ext
  · simp only [fromAxisAngle, Quat.mul]
    linear_combination (-1 : ℝ) * hc - Real.sin (a / 2) * Real.sin (b / 2) * h
  · simp only [fromAxisAngle, Quat.mul]
    linear_combination (-axis.x) * hs
  · simp only [fromAxisAngle, Quat.mul]
    linear_combination (-axis.y) * hs
  · simp only [fromAxisAngle, Quat.mul]
    linear_combination (-axis.z) * hs

/-- C8: rotating twice about the same unit axis composes additively in the
angle, both for `rotate_global` and for `rotate_local`. -/
theorem rotate_same_axis_adds (t : Transform) (axis : Vec3)
    (h : axis.x ^ 2 + axis.y ^ 2 + axis.z ^ 2 = 1) (a b : ℝ) :
    (t.rotate_global axis a).rotate_global axis b = t.rotate_global axis (a + b) ∧
    (t.rotate_local axis a).rotate_local axis b = t.rotate_local axis (a + b) := by
  constructor
  · simp only [Transform.rotate_global, Transform.mk.injEq, and_true, true_and]
    rw [← quat_mul_assoc, fromAxisAngle_mul_same_axis axis h a b]
  · simp only [Transform.rotate_local, Transform.mk.injEq, and_true, true_and]
    rw [quat_mul_assoc, fromAxisAngle_mul_same_axis axis h b a, add_comm b a]

/-- Witness for C8 at the default transform, the unit X axis and zero angles. -/
theorem rotate_same_axis_adds_witness :
    ((1 : ℝ) ^ 2 + 0 ^ 2 + 0 ^ 2 = 1) ∧
    ((Transform.default.rotate_global ⟨1, 0, 0⟩ 0).rotate_global ⟨1, 0, 0⟩ 0 =
        Transform.default.rotate_global ⟨1, 0, 0⟩ (0 + 0) ∧
      (Transform.default.rotate_local ⟨1, 0, 0⟩ 0).rotate_local ⟨1, 0, 0⟩ 0 =
        Transform.default.rotate_local ⟨1, 0, 0⟩ (0 + 0)) :=
  ⟨by norm_num, rotate_same_axis_adds Transform.default ⟨1, 0, 0⟩ (by norm_num) 0 0⟩

/-- C3 (amended): the rotation quaternion is unit at every observable point.
The default rotation is unit; the move operators, the rotate operators, the
setters and `concat` preserve a unit rotation; decoding re-normalizes the
quaternion built from the four decoded numbers, so the invariant holds for
untrusted input provided the four decoded numbers are not all zero, and also
when the rotation field is omitted. -/
theorem rotation_unit_invariant (t : Transform) (ht : t.rotation.normSq = 1)
    (axis : Vec3) (haxis : axis.x ^ 2 + axis.y ^ 2 + axis.z ^ 2 = 1)
    (angle distance : ℝ) (v : Vec3) (q : Quat) (hq : q.normSq = 1)
    (x y z sx sy sz : ℝ)
    (o : Transform) (ho : o.rotation.normSq = 1)
    (raw : RawTransform) (r4 : ℝ × ℝ × ℝ × ℝ) (hraw : raw.rotation = some r4)
    (hr4 : ¬(r4.1 = 0 ∧ r4.2.1 = 0 ∧ r4.2.2.1 = 0 ∧ r4.2.2.2 = 0))
    (raw0 : RawTransform) (hraw0 : raw0.rotation = none) :
    Transform.default.rotation.normSq = 1 ∧
    (t.move_global v).rotation.normSq = 1 ∧
    (t.move_local v).rotation.normSq = 1 ∧
    (t.move_along_global axis distance).rotation.normSq = 1 ∧
    (t.move_along_local axis distance).rotation.normSq = 1 ∧
    (t.rotate_global axis angle).rotation.normSq = 1 ∧
    (t.rotate_local axis angle).rotation.normSq = 1 ∧
    (t.set_position v).rotation.normSq = 1 ∧
    (t.set_rotation q).rotation.normSq = 1 ∧
    (t.set_rotation_euler x y z).rotation.normSq = 1 ∧
    (t.set_scale sx sy sz).rotation.normSq = 1 ∧
    (t.concat o).rotation.normSq = 1 ∧
    (Transform.deserialize raw).rotation.normSq = 1 ∧
    (Transform.deserialize raw0).rotation.normSq = 1 := by
  have haa : ∀ a : ℝ, (fromAxisAngle axis a).normSq = 1 := fromAxisAngle_normSq axis haxis
  refine ⟨by norm_num [Transform.default, Quat.one, Quat.normSq], ht, ht, ht, ht, ?_, ?_, ht,
    hq, ?_, ht, ?_, ?_, ?_⟩
  · rw [Transform.rotate_global, quat_normSq_mul, haa angle, ht, mul_one]
  · rw [Transform.rotate_local, quat_normSq_mul, haa angle, ht, mul_one]
  · exact fromEulerAngles_normSq z x y
  · rw [Transform.concat, quat_normSq_mul, ht, ho, mul_one]
  · have : (Transform.deserialize raw).rotation =
        Quat.normalize ⟨r4.1, r4.2.1, r4.2.2.1, r4.2.2.2⟩ := by
      simp [Transform.deserialize, SerializedTransform.ofRaw, hraw]
    rw [this]
    exact quat_normalize_unit _ (quat_normSq_ne_zero _ hr4)
  · have : (Transform.deserialize raw0).rotation = Quat.normalize ⟨1, 0, 0, 0⟩ := by
      simp [Transform.deserialize, SerializedTransform.ofRaw, SerializedTransform.default, hraw0]
    rw [this]
    exact quat_normalize_unit _ (by norm_num [Quat.normSq])

/-- Counterexample to C3 as stated: decoding a record whose rotation field is
all zeros divides by a zero norm, and the resulting rotation is not unit. -/
theorem deserialize_zero_rotation_not_unit :
    ((Transform.deserialize ⟨none, some (0, 0, 0, 0), none⟩).rotation).normSq ≠ 1 := by
  have : (Transform.deserialize ⟨none, some (0, 0, 0, 0), none⟩).rotation =
      Quat.normalize ⟨0, 0, 0, 0⟩ := by
    simp [Transform.deserialize, SerializedTransform.ofRaw]
  rw [this]
  norm_num [Quat.normalize, Quat.smul, Quat.normSq]

/-- Witness for C3 at concrete inputs: the default transform, the unit X
axis, the identity quaternion and a decoded rotation field `(2, 0, 0, 0)`. -/
theorem rotation_unit_invariant_witness :
    (Transform.default.rotation.normSq = 1 ∧
      ((1 : ℝ) ^ 2 + 0 ^ 2 + 0 ^ 2 = 1) ∧
      Quat.one.normSq = 1 ∧
      (RawTransform.mk none (some (2, 0, 0, 0)) none).rotation = some (2, 0, 0, 0) ∧
      ¬((2 : ℝ) = 0 ∧ (0 : ℝ) = 0 ∧ (0 : ℝ) = 0 ∧ (0 : ℝ) = 0) ∧
      (RawTransform.mk none none none).rotation = none) ∧
    (Transform.default.move_global Vec3.zero).rotation.normSq = 1 ∧
    (Transform.deserialize ⟨none, some (2, 0, 0, 0), none⟩).rotation.normSq = 1 := by
  have h1 : Transform.default.rotation.normSq = 1 := by
    norm_num [Transform.default, Quat.one, Quat.normSq]
  have main := rotation_unit_invariant Transform.default h1 ⟨1, 0, 0⟩ (by norm_num) 0 0
    Vec3.zero Quat.one (by norm_num [Quat.one, Quat.normSq]) 0 0 0 1 1 1
    Transform.default h1 ⟨none, some (2, 0, 0, 0), none⟩ (2, 0, 0, 0) rfl
    (by norm_num) ⟨none, none, none⟩ rfl
  exact ⟨⟨h1, by norm_num, by norm_num [Quat.one, Quat.normSq], rfl, by norm_num, rfl⟩,
    main.2.1, main.2.2.2.2.2.2.2.2.2.2.2.2.1⟩

theorem default_matrix_eq_one : Transform.default.matrix = 1 := by
  ext i j
  fin_cases i <;> fin_cases j <;>
    norm_num [Transform.default, Transform.matrix, prependNonuniformScaling, isoHomogeneous,
      rotMat3, Quat.one, Vec3.zero, Matrix.one_apply, Matrix.vecHead, Matrix.vecTail,
      Fin.ext_iff]

/-- C4: `view_matrix()` yields the two-sided inverse of `matrix()` whenever
that matrix is invertible; on a singular matrix (in particular whenever some
scale component is exactly zero) it yields no matrix at all, embedding the
`unwrap` abort. -/
theorem view_matrix_spec (t : Transform) :
    (t.matrix.det ≠ 0 →
      t.view_matrix = some t.matrix⁻¹ ∧
      t.matrix * t.matrix⁻¹ = 1 ∧ t.matrix⁻¹ * t.matrix = 1) ∧
    (t.matrix.det = 0 → t.view_matrix = none) ∧
    ((t.scale.x = 0 ∨ t.scale.y = 0 ∨ t.scale.z = 0) → t.view_matrix = none) := by
  have hcol : ∀ j : Fin 4, (![t.scale.x, t.scale.y, t.scale.z, 1] j = 0) →
      t.matrix.det = 0 := by
    intro j hj
    refine Matrix.det_eq_zero_of_column_eq_zero j fun i => ?_
    simp [Transform.matrix, prependNonuniformScaling, hj]
  refine ⟨fun h => ?_, fun h => ?_, fun h => ?_⟩
  · have hu : IsUnit t.matrix.det := isUnit_iff_ne_zero.mpr h
    exact ⟨by simp [Transform.view_matrix, tryInverse, h],
      Matrix.mul_nonsing_inv _ hu, Matrix.nonsing_inv_mul _ hu⟩
  · simp [Transform.view_matrix, tryInverse, h]
  · have hdet : t.matrix.det = 0 := by
      rcases h with h | h | h
      · exact hcol 0 (by simpa using h)
      · exact hcol 1 (by simpa using h)
      · exact hcol 2 (by simpa using h)
    simp [Transform.view_matrix, tryInverse, hdet]

/-- Witness for C4: the default transform has an invertible matrix and gets
its inverse; a transform with a zero scale component gets `none`. -/
theorem view_matrix_spec_witness :
    (Transform.default.matrix.det ≠ 0 ∧
      Transform.default.view_matrix = some Transform.default.matrix⁻¹) ∧
    ((Transform.default.set_scale 0 1 1).scale.x = 0 ∧
      (Transform.default.set_scale 0 1 1).view_matrix = none) := by
  have h1 : Transform.default.matrix.det ≠ 0 := by
    rw [default_matrix_eq_one]
    simp
  exact ⟨⟨h1, ((view_matrix_spec Transform.default).1 h1).1⟩,
    ⟨rfl, (view_matrix_spec (Transform.default.set_scale 0 1 1)).2.2 (Or.inl rfl)⟩⟩

/-- C5: on decode every omitted field takes its default, so an empty record
decodes to the identity transform and a record with only a translation
decodes to that translation with identity rotation and unit scale. -/
theorem deserialize_defaults (v : ℝ × ℝ × ℝ) :
    Transform.deserialize ⟨none, none, none⟩ = Transform.default ∧
    Transform.deserialize ⟨some v, none, none⟩ =
      { translation := ⟨v.1, v.2.1, v.2.2⟩, rotation := Quat.one, scale := ⟨1, 1, 1⟩ } := by
  have hn : Quat.normalize ⟨1, 0, 0, 0⟩ = Quat.one := by
    ext <;> norm_num [Quat.normalize, Quat.smul, Quat.normSq, Quat.one]
  constructor <;>
    simp [Transform.deserialize, SerializedTransform.ofRaw, SerializedTransform.default,
      Transform.default, hn, Vec3.zero]

/-- C6: encoding emits the rotation in wire order w, x, y, z (reading the
in-memory `coords` layout `[x, y, z, w]`), and the concrete transform from
the serialization test encodes to exactly the expected record. -/
theorem serialize_rotation_order (t : Transform) :
    (t.serialize).rotation = (t.rotation.w, t.rotation.x, t.rotation.y, t.rotation.z) ∧
    (Transform.mk ⟨20.1, 21.2, 22.3⟩ ⟨0.43274233, 0.47601658, 0.5192908, 0.562565⟩
        ⟨10.9, 11.8, 12.7⟩).serialize =
      ⟨(20.1, 21.2, 22.3), (0.43274233, 0.47601658, 0.5192908, 0.562565),
        (10.9, 11.8, 12.7)⟩ := by
  constructor <;>
    simp [Transform.serialize, Quat.coords, Matrix.vecHead, Matrix.vecTail]
